import Mathlib

/-!
Verification of `src/commands/difutil_check.rs` (sentry-cli `difutil check`).

The file embeds the debug-info-file representation `DifRepr`, its operations
(`ty`, `variants`, `is_usable`, `get_problem`), its structured serialization,
and the detection/dispatch logic of `execute`, and proves the specified
properties about them.

The two format adapters (`utils::MachoInfo` and `proguard::MappingView`) are
external to the checked source; they are modelled by their result values as
given by the adapter contract, and the driver is parametrised by the outcome
(`Except`) of each adapter attempt.
-/

/-- Modelled from the spec: `DifType` is defined in `commands::difutil_find`,
which is outside the provided sources.  It is the closed format enumeration
with the two CLI-visible variants `dsym` and `proguard`. -/
inductive DifType where
  | Dsym
  | Proguard
deriving DecidableEq, Repr

/-- Modelled from the spec: the result of the Mach-O/DWARF adapter
(`utils::MachoInfo`, outside the provided sources).  Per the adapter contract
it carries a mapping from 128-bit build UUIDs (embedded here as `Nat`) to
architecture-name strings — a key-ordered mapping, so keys are strictly
ascending — together with the `has_debug_info` flag. -/
structure MachoInfo where
  architectures : List (Nat × String)
  arch_sorted : architectures.Pairwise (fun a b => a.1 < b.1)
  has_debug_info : Bool

/-- Modelled from the spec: the result of the Proguard mapping adapter
(`proguard::MappingView`, an external crate): a build UUID derived from the
file content and the `has_line_info` flag. -/
structure ProguardView where
  uuid : Nat
  has_line_info : Bool
deriving DecidableEq, Repr

/-- `enum DifRepr { Dsym(MachoInfo), Proguard(proguard::MappingView) }`. -/
inductive DifRepr where
  | Dsym (mi : MachoInfo)
  | Proguard (pg : ProguardView)

/-- `DifRepr::ty`. -/
def DifRepr.ty : DifRepr → DifType
  | .Dsym _ => .Dsym
  | .Proguard _ => .Proguard

/-- Insertion into the model of `BTreeMap<Nat, α>` represented as a list of
key/value pairs strictly ascending by key; inserting an existing key replaces
its value. -/
def btreeInsert {α : Type} : List (Nat × α) → Nat → α → List (Nat × α)
  | [], k, v => [(k, v)]
  | (k', v') :: t, k, v =>
    if k < k' then (k, v) :: (k', v') :: t
    else if k = k' then (k, v) :: t
    else (k', v') :: btreeInsert t k v

/-- `collect()` of an iterator of pairs into a `BTreeMap`: left fold of
insertions starting from the empty map. -/
def btreeOfList {α : Type} (l : List (Nat × α)) : List (Nat × α) :=
  l.foldl (fun m p => btreeInsert m p.1 p.2) []

/-- `DifRepr::variants`: for `Dsym`, the adapter's architecture mapping with
each label wrapped in `Some`, collected into a `BTreeMap`; for `Proguard`,
the one-element vector `[(uuid, None)]` collected into a `BTreeMap`. -/
def DifRepr.variants : DifRepr → List (Nat × Option String)
  | .Dsym mi => btreeOfList (mi.architectures.map (fun p => (p.1, some p.2)))
  | .Proguard pg => btreeOfList [(pg.uuid, none)]

/-- `DifRepr::is_usable`. -/
def DifRepr.is_usable : DifRepr → Bool
  | .Dsym mi => mi.has_debug_info
  | .Proguard pg => pg.has_line_info

/-- `DifRepr::get_problem`. -/
def DifRepr.get_problem (r : DifRepr) : Option String :=
  if r.is_usable then
    none
  else
    some (match r with
      | .Dsym _ => "missing DWARF debug info"
      | .Proguard _ => "missing line information")

/-- A minimal JSON value type for the structured-output contract. -/
inductive Json where
  | null
  | bool (b : Bool)
  | str (s : String)
  | obj (fields : List (String × Json))

/-- The field list of a JSON object (empty for non-objects). -/
def Json.fields : Json → List (String × Json)
  | .obj fs => fs
  | _ => []

/-- Modelled from the spec: the serde rendering of a `DifType` tag (its
`Serialize` impl lives in `commands::difutil_find`, outside the provided
sources): the format tag rendered as its CLI name. -/
def encodeDifType : DifType → Json
  | .Dsym => .str "dsym"
  | .Proguard => .str "proguard"

/-- Serde rendering of an `Option<&str>`: `null` when absent. -/
def encodeOptStr : Option String → Json
  | none => .null
  | some s => .str s

/-- Modelled from the spec: the rendering of a 128-bit build UUID as a JSON
object key is done by the external `uuid` crate; any fixed injective
rendering serves the contract, and the decimal rendering is used here. -/
def uuidString (u : Nat) : String := toString u

/-- Serde rendering of the `BTreeMap<Uuid, Option<&str>>` of variants: a JSON
object in key order, labels rendered as `null` when absent. -/
def encodeVariants (v : List (Nat × Option String)) : Json :=
  .obj (v.map (fun p => (uuidString p.1, encodeOptStr p.2)))

/-- `impl Serialize for DifRepr`: a four-field struct serialized in the order
`type`, `variants`, `is_usable`, `problem`, each field obtained by calling the
corresponding accessor. -/
def serializeDifRepr (r : DifRepr) : Json :=
  .obj [("type", encodeDifType r.ty),
        ("variants", encodeVariants r.variants),
        ("is_usable", .bool r.is_usable),
        ("problem", encodeOptStr r.get_problem)]

/-- Errors produced by `execute`: ordinary message errors (`fail!` and
adapter errors converted via `?` / `.into()`), and the distinguished
`ErrorKind::QuietExit(n)`. -/
inductive ExecError where
  | message (s : String)
  | quietExit (code : Nat)
deriving DecidableEq, Repr

/-- The detection/dispatch part of `execute`: from the optional `--type` hint,
the outcome of each adapter attempt, and the file-name extension, produce the
`DifRepr` exactly as the `match ty { ... }` expression in the source does. -/
def detect (hint : Option DifType) (macho : Except String MachoInfo)
    (pg : Except String ProguardView) (ext : Option String) :
    Except ExecError DifRepr :=
  match hint with
  | some .Dsym =>
    match macho with
    | .ok mi => .ok (.Dsym mi)
    | .error e => .error (.message e)
  | some .Proguard =>
    match pg with
    | .ok p => .ok (.Proguard p)
    | .error e => .error (.message e)
  | none =>
    match macho with
    | .ok mi => .ok (.Dsym mi)
    | .error _ =>
      match pg with
      | .ok p =>
        if (ext == some "txt") || p.has_line_info then
          .ok (.Proguard p)
        else
          .error (.message "invalid debug info file")
      | .error e => .error (.message e)

/-- The whole of `execute` after argument parsing, with output side effects
dropped: detection followed by the exit decision, which in the `--json`
branch tests `is_usable` and in the text branch tests `get_problem`. -/
def execute (hint : Option DifType) (json : Bool)
    (macho : Except String MachoInfo) (pg : Except String ProguardView)
    (ext : Option String) : Except ExecError Unit :=
  match detect hint macho pg ext with
  | .error e => .error e
  | .ok repr =>
    if json then
      if repr.is_usable then .ok () else .error (.quietExit 1)
    else
      match repr.get_problem with
      | some _ => .error (.quietExit 1)
      | none => .ok ()

/-- Concrete adapter results used as witnesses. -/
def miUsable : MachoInfo := ⟨[(0, "arm64")], by simp, true⟩

def miNoDebug : MachoInfo := ⟨[(0, "arm64")], by simp, false⟩

def pgNoLine : ProguardView := ⟨7, false⟩

def pgWithLine : ProguardView := ⟨7, true⟩

/-- Inserting a key greater than every key of the list appends at the end. -/
theorem btreeInsert_append {α : Type} (l : List (Nat × α)) (k : Nat) (v : α)
    (h : ∀ p ∈ l, p.1 < k) : btreeInsert l k v = l ++ [(k, v)] := by
  induction l with
  | nil => rfl
  | cons hd t ih =>
    have hk : hd.1 < k := h hd (List.mem_cons_self hd t)
    simp only [btreeInsert]
    rw [if_neg (by omega), if_neg (by omega), ih]
    · simp
    · intro p hp
      exact h p (List.mem_cons_of_mem hd hp)

/-- Folding insertions of a strictly ascending list whose keys all exceed the
accumulator's keys appends the list to the accumulator. -/
theorem foldl_btreeInsert {α : Type} (l : List (Nat × α)) :
    ∀ m : List (Nat × α), (∀ p ∈ m, ∀ q ∈ l, p.1 < q.1) →
    l.Pairwise (fun a b => a.1 < b.1) →
    l.foldl (fun m p => btreeInsert m p.1 p.2) m = m ++ l := by
  induction l with
  | nil => intro m _ _; simp
  | cons hd t ih =>
    intro m hml hl
    rw [List.foldl_cons,
      btreeInsert_append m hd.1 hd.2
        (fun p hp => hml p hp hd (List.mem_cons_self hd t))]
    rw [ih (m ++ [hd])]
    · simp
    · intro p hp q hq
      rcases List.mem_append.mp hp with h1 | h1
      · exact hml p h1 q (List.mem_cons_of_mem hd hq)
      · have : p = hd := by simpa using h1
        subst this
        exact (List.pairwise_cons.mp hl).1 q hq
    · exact (List.pairwise_cons.mp hl).2

/-- Collecting a strictly ascending list into the `BTreeMap` model is the
identity. -/
theorem btreeOfList_sorted {α : Type} (l : List (Nat × α))
    (h : l.Pairwise (fun a b => a.1 < b.1)) : btreeOfList l = l := by
  have := foldl_btreeInsert l [] (by simp) h
  simpa [btreeOfList] using this

/-- Claim C1: during autodetection, a file that the mapping adapter parses
successfully but whose extension is not the conventional one and whose
content reports no line-mapping info makes the driver fail with the generic
classification error "invalid debug info file" instead of producing a
Proguard representation. -/
theorem C1_guard_classification_failure
    (e : String) (p : ProguardView) (ext : Option String)
    (hext : ext ≠ some "txt") (hline : p.has_line_info = false) :
    detect none (.error e) (.ok p) ext
      = .error (.message "invalid debug info file") := by
  simp [detect, hline, beq_eq_false_iff_ne.mpr hext]

/-- Witness for C1 at a concrete wrong-extension, no-line-info input. -/
theorem C1_witness :
    detect none (.error "not a mach-o") (.ok pgNoLine) (some "map")
      = .error (.message "invalid debug info file") :=
  C1_guard_classification_failure "not a mach-o" pgNoLine (some "map")
    (by decide) rfl

/-- Claim C2: for every constructed representation, `get_problem` returns a
description if and only if `is_usable` is false. -/
theorem C2_problem_iff_unusable (r : DifRepr) :
    (r.get_problem).isSome = true ↔ r.is_usable = false := by
  cases r <;> simp [DifRepr.get_problem, DifRepr.is_usable]

/-- Witness for C2 at a concrete unusable mapping representation. -/
theorem C2_witness :
    ((DifRepr.Proguard pgNoLine).get_problem).isSome = true ↔
      (DifRepr.Proguard pgNoLine).is_usable = false :=
  C2_problem_iff_unusable (DifRepr.Proguard pgNoLine)

/-- Counterexample to claim C3 as stated: the unusable binary-variant
representation reports the problem "missing DWARF debug info", not
"missing debug information". -/
theorem C3_counterexample :
    (DifRepr.Dsym miNoDebug).is_usable = false ∧
    (DifRepr.Dsym miNoDebug).get_problem ≠ some "missing debug information" := by
  constructor
  · rfl
  · decide

/-- Claim C3 (amended): for every unusable representation, `get_problem`
returns a fixed, format-specific static message — "missing DWARF debug info"
for the binary variant and "missing line information" for the mapping
variant — never computed from dynamic adapter data. -/
theorem C3_fixed_problem_messages (r : DifRepr) (h : r.is_usable = false) :
    r.get_problem = some (match r with
      | .Dsym _ => "missing DWARF debug info"
      | .Proguard _ => "missing line information") := by
  simp only [DifRepr.get_problem, h, Bool.false_eq_true, if_false,
    Option.some.injEq]
  cases r <;> rfl

/-- Witness for the amended C3 at a concrete unusable binary input. -/
theorem C3_witness :
    (DifRepr.Dsym miNoDebug).get_problem = some "missing DWARF debug info" :=
  C3_fixed_problem_messages (DifRepr.Dsym miNoDebug) rfl

/-- Claim C4: autodetection tries the binary adapter first and accepts its
success unconditionally (regardless of usability), and when both adapters
fail the mapping adapter's error is surfaced verbatim. -/
theorem C4_autodetect_priority :
    (∀ (mi : MachoInfo) (pg : Except String ProguardView) (ext : Option String),
      detect none (.ok mi) pg ext = .ok (.Dsym mi)) ∧
    (∀ (e1 e2 : String) (ext : Option String),
      detect none (.error e1) (.error e2) ext = .error (.message e2)) := by
  constructor <;> intros <;> rfl

/-- Claim C5: a binary-style representation has one variant per architecture
slice reported by the adapter, each with a non-null label; a mapping-style
representation has exactly one variant, the adapter's build id, with a null
label; and in both cases the entries are strictly ascending by build id. -/
theorem C5_variants_shape :
    (∀ mi : MachoInfo,
      (DifRepr.Dsym mi).variants
          = mi.architectures.map (fun p => (p.1, some p.2)) ∧
      (DifRepr.Dsym mi).variants.length = mi.architectures.length ∧
      (∀ q ∈ (DifRepr.Dsym mi).variants, q.2.isSome = true) ∧
      (DifRepr.Dsym mi).variants.Pairwise (fun a b => a.1 < b.1)) ∧
    (∀ pg : ProguardView,
      (DifRepr.Proguard pg).variants = [(pg.uuid, none)] ∧
      (DifRepr.Proguard pg).variants.Pairwise (fun a b => a.1 < b.1)) := by
  constructor
  · intro mi
    have hsorted :
        (mi.architectures.map (fun p => (p.1, some p.2))).Pairwise
          (fun a b => a.1 < b.1) := by
      rw [List.pairwise_map]
      exact mi.arch_sorted
    have hid : (DifRepr.Dsym mi).variants
        = mi.architectures.map (fun p => (p.1, some p.2)) := by
      simp only [DifRepr.variants]
      exact btreeOfList_sorted _ hsorted
    refine ⟨hid, ?_, ?_, ?_⟩
    · rw [hid]; simp
    · intro q hq
      rw [hid] at hq
      rcases List.mem_map.mp hq with ⟨p, _, hpq⟩
      simp [← hpq]
    · rw [hid]; exact hsorted
  · intro pg
    constructor
    · rfl
    · simp [DifRepr.variants, btreeOfList, btreeInsert]

/-- Claim C6: the structured serialization is an object with exactly the four
fields `type`, `variants`, `is_usable`, `problem` in that order, and each
field's value agrees with the corresponding accessor called on the same
representation. -/
theorem C6_serialization_agreement (r : DifRepr) :
    (serializeDifRepr r).fields.map Prod.fst
        = ["type", "variants", "is_usable", "problem"] ∧
    (serializeDifRepr r).fields.length = 4 ∧
    ((serializeDifRepr r).fields.lookup "type" = some (encodeDifType r.ty)) ∧
    ((serializeDifRepr r).fields.lookup "variants"
        = some (encodeVariants r.variants)) ∧
    ((serializeDifRepr r).fields.lookup "is_usable"
        = some (.bool r.is_usable)) ∧
    ((serializeDifRepr r).fields.lookup "problem"
        = some (encodeOptStr r.get_problem)) := by
  refine ⟨rfl, rfl, ?_, ?_, ?_, ?_⟩ <;>
    simp [serializeDifRepr, Json.fields, List.lookup]

/-- Claim C7: whenever detection succeeds, in both output modes `execute`
returns success exactly when the representation is usable and the quiet
`QuietExit 1` otherwise; whenever detection fails, the failure is a
non-quiet message error that `execute` propagates. -/
theorem C7_exit_policy (hint : Option DifType) (json : Bool)
    (macho : Except String MachoInfo) (pg : Except String ProguardView)
    (ext : Option String) :
    (∀ repr : DifRepr, detect hint macho pg ext = .ok repr →
      execute hint json macho pg ext
        = (if repr.is_usable then .ok () else .error (.quietExit 1))) ∧
    (∀ e : ExecError, detect hint macho pg ext = .error e →
      (∃ s, e = .message s) ∧ execute hint json macho pg ext = .error e) := by
  constructor
  · intro repr hdet
    cases json with
    | true => simp [execute, hdet]
    | false =>
      simp only [execute, hdet, Bool.false_eq_true, if_false]
      rcases hrep : repr.get_problem with _ | prob
      · have : repr.is_usable = true := by
          by_contra hu
          have := (C2_problem_iff_unusable repr).mpr
            (Bool.eq_false_iff.mpr hu)
          simp [hrep] at this
        simp [this]
      · have : repr.is_usable = false :=
          (C2_problem_iff_unusable repr).mp (by simp [hrep])
        simp [this]
  · intro e hdet
    refine ⟨?_, by simp [execute, hdet]⟩
    cases hint with
    | some t =>
      cases t with
      | Dsym =>
        cases macho with
        | ok mi => simp [detect] at hdet
        | error s =>
          simp [detect] at hdet
          exact ⟨s, hdet.symm⟩
      | Proguard =>
        cases pg with
        | ok p => simp [detect] at hdet
        | error s =>
          simp [detect] at hdet
          exact ⟨s, hdet.symm⟩
    | none =>
      cases macho with
      | ok mi => simp [detect] at hdet
      | error s1 =>
        cases pg with
        | ok p =>
          simp only [detect] at hdet
          by_cases hg : ((ext == some "txt") || p.has_line_info) = true
          · rw [if_pos hg] at hdet
            simp at hdet
          · rw [if_neg hg] at hdet
            injection hdet with hdet
            exact ⟨"invalid debug info file", hdet.symm⟩
        | error s2 =>
          simp [detect] at hdet
          exact ⟨s2, hdet.symm⟩

/-- Witness for C7: a usable binary file detected without a hint yields
success in JSON mode. -/
theorem C7_witness :
    execute none true (.ok miUsable) (.error "bad mapping") none
      = (if (DifRepr.Dsym miUsable).is_usable then .ok ()
         else .error (.quietExit 1)) :=
  (C7_exit_policy none true (.ok miUsable) (.error "bad mapping") none).1
    (DifRepr.Dsym miUsable) rfl

/-- Claim C8: with an explicit `--type` hint only that adapter runs; its
success is accepted and its failure propagates, independently of the other
adapter's outcome (no fallback, no autodetection). -/
theorem C8_explicit_hint_no_fallback :
    (∀ (mi : MachoInfo) (pg : Except String ProguardView) (ext : Option String),
      detect (some .Dsym) (.ok mi) pg ext = .ok (.Dsym mi)) ∧
    (∀ (e : String) (pg : Except String ProguardView) (ext : Option String),
      detect (some .Dsym) (.error e) pg ext = .error (.message e)) ∧
    (∀ (macho : Except String MachoInfo) (p : ProguardView) (ext : Option String),
      detect (some .Proguard) macho (.ok p) ext = .ok (.Proguard p)) ∧
    (∀ (macho : Except String MachoInfo) (e : String) (ext : Option String),
      detect (some .Proguard) macho (.error e) ext = .error (.message e)) := by
  refine ⟨?_, ?_, ?_, ?_⟩ <;> intros <;> rfl

/-- Claim C9: the low-confidence guard applies only during autodetection —
with an explicit proguard hint, a successfully parsed mapping file is
accepted even with a non-matching extension and no line-mapping info, and
then reports unusability instead of a classification error. -/
theorem C9_hint_skips_guard (macho : Except String MachoInfo)
    (p : ProguardView) (ext : Option String)
    (hext : ext ≠ some "txt") (hline : p.has_line_info = false) :
    detect (some .Proguard) macho (.ok p) ext = .ok (.Proguard p) ∧
    (DifRepr.Proguard p).is_usable = false := by
  exact ⟨rfl, hline⟩

/-- Witness for C9 at a concrete no-extension, no-line-info input. -/
theorem C9_witness :
    detect (some .Proguard) (.error "not a mach-o") (.ok pgNoLine) none
      = .ok (.Proguard pgNoLine) ∧
    (DifRepr.Proguard pgNoLine).is_usable = false :=
  C9_hint_skips_guard (.error "not a mach-o") pgNoLine none (by decide) rfl

/-- Claim C10: the guard's extension arm is exact, case-sensitive equality
with "txt": with no line info, any other extension (different case, different
word, or missing) fails the guard, including concretely "TXT"; and exactly
"txt" passes it even with no line info. -/
theorem C10_extension_exact_match :
    (∀ (e s : String) (p : ProguardView), p.has_line_info = false →
      s ≠ "txt" →
      detect none (.error e) (.ok p) (some s)
        = .error (.message "invalid debug info file")) ∧
    (∀ (e : String) (p : ProguardView), p.has_line_info = false →
      detect none (.error e) (.ok p) none
        = .error (.message "invalid debug info file")) ∧
    (detect none (.error "e") (.ok pgNoLine) (some "TXT")
        = .error (.message "invalid debug info file")) ∧
    (∀ (e : String) (p : ProguardView),
      detect none (.error e) (.ok p) (some "txt") = .ok (.Proguard p)) := by
  refine ⟨?_, ?_, ?_, ?_⟩
  · intro e s p hline hs
    simp [detect, hline, beq_eq_false_iff_ne.mpr (by simpa using hs)]
  · intro e p hline
    simp [detect, hline]
  · rfl
  · intro e p
    simp [detect]

/-- Witness for C10 at a concrete differently-cased extension. -/
theorem C10_witness :
    detect none (.error "e") (.ok pgNoLine) (some "Txt")
      = .error (.message "invalid debug info file") :=
  C10_extension_exact_match.1 "e" "Txt" pgNoLine rfl (by decide)
